import Mathlib

/-!
Shallow embedding of the Event-Management-System core
(events/models/event.py, events/models/event_permission.py,
events/models/event_changelog.py, events/services/event_service.py,
events/views/event_views.py, events/views/permission_views.py,
core/models/user.py).

Conventions of the embedding:
* datetimes are modeled as natural numbers counting minutes
  (`timedelta(days=1)` is `minutesPerDay = 1440` units);
* uuid primary keys are modeled as natural numbers, with fresh ids
  computed as (max id in table) + 1;
* the database is a record of lists of rows; Django querysets become
  list filters;
* python exceptions become `Except SvcError`; for the service-layer
  operations (which are wrapped in `transaction.atomic`) returning
  `.error` models a rolled-back transaction that leaves the store
  untouched;
* the unbounded `while` loops of the source are modeled with an
  explicit fuel argument; `none` (or a truncated list) models a
  non-terminating run of the python loop.
-/

/-- One minute is the base time unit; a python `timedelta(days=1)`
is 1440 units. -/
def minutesPerDay : Nat := 1440

/-- Roles of `EventPermission.ROLE_CHOICES`. -/
inductive Role where
  | owner
  | editor
  | viewer
deriving DecidableEq, Repr

/-- The `RecurrencePattern` text choices of events/models/event.py. -/
inductive RecPattern where
  | daily
  | weekly
  | monthly
  | yearly
  | custom
deriving DecidableEq, Repr

/-- The `custom_recurrence` JSON payload: the source reads
`custom_recurrence.get("interval", 1)` and `custom_recurrence.get("unit", "days")`,
so both keys are optional. -/
structure CustomRec where
  interval : Option Nat
  unit : Option String
deriving DecidableEq, Repr

/-- The `CHANGE_TYPES` of events/models/event_changelog.py. -/
inductive ChangeType where
  | create
  | update
  | delete
  | permission_add
  | permission_update
  | permission_delete
  | field_update
deriving DecidableEq, Repr

/-- A row of the `events` table (events/models/event.py).  `owner` and
`created_by` are optional because unsaved transient instances (the
conflict-check candidate, generated recurring instances) leave them
unset in the source. -/
structure EventRow where
  id : Nat
  title : String
  description : String
  start_date : Nat
  end_date : Nat
  location : String
  owner : Option Nat
  created_by : Option Nat
  updated_by : Option Nat
  version : Nat
  is_latest : Bool
  parent_version : Option Nat
  is_recurring : Bool
  recurrence_pattern : Option RecPattern
  recurrence_end_date : Option Nat
  custom_recurrence : Option CustomRec
  parent_event : Option Nat
  participants : List Nat
deriving DecidableEq, Repr

/-- A row of the `event_permissions` table (events/models/event_permission.py). -/
structure PermRow where
  id : Nat
  event : Nat
  user : Nat
  role : Role
  granted_by : Option Nat
deriving DecidableEq, Repr

/-- A row of the changelog table (events/models/event_changelog.py);
only the columns the claims mention are kept (the JSON snapshot columns
and version references are irrelevant to the counted facts). -/
structure ChangeRow where
  id : Nat
  event : Nat
  user : Option Nat
  change_type : ChangeType
deriving DecidableEq, Repr

/-- A row of the `users` table (core/models/user.py); only the columns
used by `has_event_permission` are kept. -/
structure UserRow where
  id : Nat
  is_superuser : Bool
deriving DecidableEq, Repr

/-- The relational store. -/
structure Db where
  events : List EventRow
  perms : List PermRow
  logs : List ChangeRow
  users : List UserRow
deriving DecidableEq, Repr

/-- A suggested slot, the `{"start_date": ..., "end_date": ...}` dict of
`EventService.suggest_alternative_slots`. -/
structure Slot where
  start_date : Nat
  end_date : Nat
deriving DecidableEq, Repr

/-- Error outcomes.  `conflict` carries the projection
`conflicts.values("id", "title", "start_date", "end_date")` together with
the suggested slots, the structured failure `EventService.create_event`
is written to raise.  `noneTypeError` models a python `AttributeError`
on a `None` query result, `typeError` a python `TypeError` (notably the
one Django raises for a many-to-many keyword passed to a model
constructor), and `diverged` a python loop that does not terminate. -/
inductive SvcError where
  | duplicateOwner
  | validation
  | permissionDenied
  | notFound
  | versionNotFound
  | notLatest
  | noneTypeError
  | typeError
  | diverged
  | conflict (conflicts : List (Nat × String × Nat × Nat)) (suggestions : List Slot)
deriving DecidableEq, Repr

/-! ## Conflict detection (EventService.check_conflicts, Event.check_conflicts) -/

/-- Interval-overlap test of both conflict checkers:
`start_date__lt=end AND end_date__gt=start`. -/
def overlaps (ev : EventRow) (s e : Nat) : Bool :=
  decide (ev.start_date < e) && decide (ev.end_date > s)

/-- Model of `Event.check_conflicts`: all events overlapping `self`,
excluding `self.id`. -/
def checkConflictsMethod (cal : List EventRow) (self : EventRow) : List EventRow :=
  (cal.filter (fun ev => overlaps ev self.start_date self.end_date)).filter
    (fun ev => decide (ev.id ≠ self.id))

/-- Model of `EventService.check_conflicts`: the same overlap filter and
id-exclusion; the participant filter `conflicts.filter(participants__in=participants)`
is applied only when the passed collection is truthy, i.e. present and
non-empty (`if participants:`). -/
def checkConflictsSvc (cal : List EventRow) (event : EventRow)
    (participants : Option (List Nat)) : List EventRow :=
  let conflicts := (cal.filter (fun ev => overlaps ev event.start_date event.end_date)).filter
    (fun ev => decide (ev.id ≠ event.id))
  match participants with
  | some ps =>
    if ps.isEmpty then conflicts
    else conflicts.filter (fun ev => ps.any (fun p => ev.participants.any (fun q => q == p)))
  | none => conflicts

/-! ## Slot suggestion (EventService.suggest_alternative_slots) -/

/-- The probe of the suggestion loop: `Event.objects.filter(start_date__lt=potential_end,
end_date__gt=current_start).exists()` (no id exclusion, no participant filter). -/
def hasConflict (cal : List EventRow) (s e : Nat) : Bool :=
  cal.any (fun ev => overlaps ev s e)

/-- The `while len(suggestions) < num_suggestions` loop, with explicit
fuel: each fuel unit is one loop iteration; `none` models the python
loop running forever. In both branches the probe start advances by the
duration `d`. -/
def suggestLoop (cal : List EventRow) (d : Nat) : Nat → Nat → Nat → Option (List Slot)
  | _, 0, _ => some []
  | _, _ + 1, 0 => none
  | s, need + 1, fuel + 1 =>
    if hasConflict cal s (s + d) then
      suggestLoop cal d (s + d) (need + 1) fuel
    else
      (suggestLoop cal d (s + d) need fuel).map (fun l => ⟨s, s + d⟩ :: l)

/-- Largest `end_date` in the calendar (0 when empty); once a probe
starts at or after this instant it can no longer conflict. -/
def maxEnd (cal : List EventRow) : Nat :=
  cal.foldr (fun ev m => max ev.end_date m) 0

/-- Model of `EventService.suggest_alternative_slots`: probe consecutive
slots of the candidate duration starting at `event.end_date`.  The fuel
`maxEnd cal + num` is proved sufficient whenever the duration is
positive. -/
def suggestAlternativeSlots (cal : List EventRow) (event : EventRow) (num : Nat) :
    Option (List Slot) :=
  let d := event.end_date - event.start_date
  suggestLoop cal d event.end_date num (maxEnd cal + num)

/-! ## Changelog diff (EventChangeLog.diff) -/

/-- A JSON data map: insertion-ordered keys, each bound to either a
payload value (modeled as a string) or an explicit null. -/
abbrev JMap : Type := List (String × Option String)

/-- Python `dict.get(key)`: a missing key and an explicit null both
come back as `None`. -/
def dget (m : JMap) (k : String) : Option String :=
  match List.lookup k m with
  | some v => v
  | none => none

/-- The key list of a data map. -/
def dkeys (m : JMap) : List String := m.map (fun kv => kv.1)

/-- Model of the `EventChangeLog.diff` property.  The source first
checks `if not self.previous_data or not self.new_data: return {}` —
an empty (or null) map on either side short-circuits to the empty
diff.  Otherwise it walks the union of the key sets and keeps the keys
whose looked-up values differ. -/
def diffMaps (a b : JMap) : List (String × Option String × Option String) :=
  if a = ([] : JMap) ∨ b = ([] : JMap) then []
  else
    ((dkeys a ++ dkeys b).dedup).filterMap (fun k =>
      if dget a k ≠ dget b k then some (k, dget a k, dget b k) else none)

/-! ## Recurrence expansion (Event.generate_recurring_instances) -/

/-- Per-iteration step of the expansion loop, in minutes:
daily `+1` day, weekly `+7` days, monthly `+30` days, yearly `+365`
days; custom reads `{interval, unit}` with defaults `1` and `"days"`;
an unknown unit or a missing custom spec makes the loop `break`
(`none`).  A null pattern also yields `none` (the source loop would
fault there, but `Event.save` forbids persisting a recurring event
without a pattern). -/
def stepOf (t : EventRow) : Option Nat :=
  match t.recurrence_pattern with
  | some RecPattern.daily => some (1 * minutesPerDay)
  | some RecPattern.weekly => some (7 * minutesPerDay)
  | some RecPattern.monthly => some (30 * minutesPerDay)
  | some RecPattern.yearly => some (365 * minutesPerDay)
  | some RecPattern.custom =>
    match t.custom_recurrence with
    | none => none
    | some c =>
      let interval := c.interval.getD 1
      match c.unit.getD "days" with
      | "days" => some (interval * minutesPerDay)
      | "weeks" => some (interval * (7 * minutesPerDay))
      | "months" => some (30 * interval * minutesPerDay)
      | "years" => some (365 * interval * minutesPerDay)
      | _ => none
  | none => none

/-- One generated instance at start `s`: copies title, description and
location from the template, keeps the template duration, links
`parent_event` to the template and is itself non-recurring.  Unsaved
instances carry no primary key or owner; `version`/`is_latest` keep
their model defaults. -/
def mkInstance (t : EventRow) (s : Nat) : EventRow :=
  { id := 0
    title := t.title
    description := t.description
    start_date := s
    end_date := s + (t.end_date - t.start_date)
    location := t.location
    owner := none
    created_by := t.created_by
    updated_by := none
    version := 1
    is_latest := true
    parent_version := none
    is_recurring := false
    recurrence_pattern := none
    recurrence_end_date := none
    custom_recurrence := none
    parent_event := some t.id
    participants := [] }

/-- The `while current_date <= end_date` loop of
`generate_recurring_instances`, fueled.  Each iteration computes the
next start, breaks when the step is unavailable or the next start
passes the bound, otherwise emits an instance and advances. -/
def genLoop (t : EventRow) (bound : Nat) : Nat → Nat → List EventRow
  | _, 0 => []
  | cur, fuel + 1 =>
    if cur ≤ bound then
      match stepOf t with
      | none => []
      | some d =>
        if cur + d > bound then []
        else mkInstance t (cur + d) :: genLoop t bound (cur + d) fuel
    else []

/-- The expansion bound: `until_date or self.recurrence_end_date or
(self.start_date + timedelta(days=365))`. -/
def boundOf (t : EventRow) (untilDate : Option Nat) : Nat :=
  untilDate.getD (t.recurrence_end_date.getD (t.start_date + 365 * minutesPerDay))

/-- Model of `Event.generate_recurring_instances`: the empty list for a
non-recurring event or for a generated instance (`parent_event` set);
otherwise the fueled loop from the template start.  The fuel
`boundOf t untilDate + 1` is sufficient whenever the step is positive. -/
def generateRecurringInstances (t : EventRow) (untilDate : Option Nat) : List EventRow :=
  if t.is_recurring = false ∨ t.parent_event ≠ none then []
  else genLoop t (boundOf t untilDate) t.start_date (boundOf t untilDate + 1)

/-! ## Fresh primary keys -/

/-- A fresh event id: strictly larger than every id in the table. -/
def freshEventId (db : Db) : Nat :=
  (db.events.foldr (fun e m => max e.id m) 0) + 1

/-- A fresh permission id. -/
def freshPermId (db : Db) : Nat :=
  (db.perms.foldr (fun q m => max q.id m) 0) + 1

/-- A fresh changelog id. -/
def freshLogId (db : Db) : Nat :=
  (db.logs.foldr (fun l m => max l.id m) 0) + 1

/-- Append one changelog row (`create_changelog_entry` of
events/utils/changelog_utils.py and the inline
`EventChangeLog.objects.create` calls of the service). -/
def appendLog (db : Db) (eventId : Nat) (userId : Nat) (ct : ChangeType) : Db :=
  { db with logs := db.logs ++ [{ id := freshLogId db, event := eventId,
                                  user := some userId, change_type := ct }] }

/-! ## Permission model (EventPermission, User.has_event_permission) -/

/-- Insert-or-update of a permission row by primary key (the effect of
`Model.save()` once validation passed). -/
def upsertPerm (ps : List PermRow) (p : PermRow) : List PermRow :=
  if ps.any (fun q => q.id == p.id) then
    ps.map (fun q => if q.id = p.id then p else q)
  else ps ++ [p]

/-- Model of `EventPermission.save`: when the saved role is `owner` and
another permission row of the same event (excluding this row's own pk)
already holds `owner`, raise `ValueError("Event already has an owner")`;
otherwise persist the row. -/
def savePermission (db : Db) (p : PermRow) : Except SvcError Db :=
  if p.role = Role.owner ∧
      db.perms.any (fun q => q.event == p.event && decide (q.role = Role.owner)
                              && q.id != p.id) = true then
    Except.error SvcError.duplicateOwner
  else
    Except.ok { db with perms := upsertPerm db.perms p }

/-- Permission kinds checked by `User.has_event_permission`. -/
inductive PermType where
  | view
  | edit
  | delete
deriving DecidableEq, Repr

/-- Model of `User.has_event_permission`: superusers pass everything;
otherwise look up this user's permission row on the given event —
no row means no access; a row grants `view` always, `edit` to
owner/editor, `delete` to owner only. -/
def hasEventPermission (db : Db) (u : UserRow) (eventId : Nat) (pt : PermType) : Bool :=
  if u.is_superuser then true
  else
    match db.perms.find? (fun q => q.event == eventId && q.user == u.id) with
    | none => false
    | some q =>
      match pt with
      | PermType.view => true
      | PermType.edit => decide (q.role = Role.owner) || decide (q.role = Role.editor)
      | PermType.delete => decide (q.role = Role.owner)

/-- The root of a row's lineage: `self.parent_version or self`. -/
def rootIdOf (e : EventRow) : Nat := e.parent_version.getD e.id

/-! ## Permission views (events/views/permission_views.py) -/

/-- Model of `EventPermissionView.post` (add a permission): resolve the
event and its root, require `view` then `edit` on the root, validate
that the target user exists and that an `owner` grant does not collide
with an existing owner (the serializer check, which does not exclude
any pk), then save the new permission row (which re-runs the model-level
owner check) and append a `permission_add` changelog row. -/
def addPermissionView (db : Db) (eventId : Nat) (actor : UserRow)
    (targetUser : Nat) (role : Role) : Except SvcError Db :=
  match db.events.find? (fun e => e.id == eventId) with
  | none => Except.error SvcError.notFound
  | some ev =>
    let rootId := rootIdOf ev
    if hasEventPermission db actor rootId PermType.view = false then
      Except.error SvcError.permissionDenied
    else if hasEventPermission db actor rootId PermType.edit = false then
      Except.error SvcError.permissionDenied
    else if db.users.any (fun u => u.id == targetUser) = false then
      Except.error SvcError.validation
    else if role = Role.owner ∧
        db.perms.any (fun q => q.event == rootId && decide (q.role = Role.owner)) = true then
      Except.error SvcError.validation
    else
      match savePermission db { id := freshPermId db, event := rootId, user := targetUser,
                                role := role, granted_by := some actor.id } with
      | Except.error e => Except.error e
      | Except.ok db1 => Except.ok (appendLog db1 rootId actor.id ChangeType.permission_add)

/-- Model of `EventPermissionDetailView.put` (update a permission):
resolve event/root, require `view` then `edit`, run the serializer
owner check (again not excluding the row being updated), then save the
row with the new role (model-level check excludes its own pk) and log
`permission_update`. -/
def updatePermissionView (db : Db) (eventId permissionId : Nat) (actor : UserRow)
    (newRole : Role) : Except SvcError Db :=
  match db.events.find? (fun e => e.id == eventId) with
  | none => Except.error SvcError.notFound
  | some ev =>
    let rootId := rootIdOf ev
    if hasEventPermission db actor rootId PermType.view = false then
      Except.error SvcError.permissionDenied
    else
      match db.perms.find? (fun q => q.id == permissionId && q.event == rootId) with
      | none => Except.error SvcError.notFound
      | some perm =>
        if hasEventPermission db actor rootId PermType.edit = false then
          Except.error SvcError.permissionDenied
        else if newRole = Role.owner ∧
            db.perms.any (fun q => q.event == rootId && decide (q.role = Role.owner)) = true then
          Except.error SvcError.validation
        else
          match savePermission db { perm with role := newRole } with
          | Except.error e => Except.error e
          | Except.ok db1 =>
            Except.ok (appendLog db1 rootId actor.id ChangeType.permission_update)

/-- Model of `EventPermissionDetailView.delete` (revoke a permission):
resolve event/root, require `view` then `edit` on the root, write a
`permission_delete` changelog row, then delete the permission row.
There is no role check whatsoever on the deleted permission. -/
def deletePermissionView (db : Db) (eventId permissionId : Nat) (actor : UserRow) :
    Except SvcError Db :=
  match db.events.find? (fun e => e.id == eventId) with
  | none => Except.error SvcError.notFound
  | some ev =>
    let rootId := rootIdOf ev
    if hasEventPermission db actor rootId PermType.view = false then
      Except.error SvcError.permissionDenied
    else
      match db.perms.find? (fun q => q.id == permissionId && q.event == rootId) with
      | none => Except.error SvcError.notFound
      | some _ =>
        if hasEventPermission db actor rootId PermType.edit = false then
          Except.error SvcError.permissionDenied
        else
          let db1 := appendLog db rootId actor.id ChangeType.permission_delete
          Except.ok { db1 with perms := db1.perms.filter (fun q => decide (q.id ≠ permissionId)) }

/-! ## EventService.update_event_permissions -/

/-- Sequentially create the added permission rows (each create runs the
model-level owner check and may fail, aborting the atomic transaction). -/
def addPermRows (eventId : Nat) : Db → List (Nat × Role) → Except SvcError Db
  | db, [] => Except.ok db
  | db, (u, r) :: rest =>
    match savePermission db { id := freshPermId db, event := eventId, user := u,
                              role := r, granted_by := none } with
    | Except.error e => Except.error e
    | Except.ok db1 => addPermRows eventId db1 rest

/-- Model of `EventService.update_event_permissions`: require an `owner`
permission row for the acting user on the event itself (no superuser
bypass); compute the `(user, role)` symmetric difference between the
current and the desired sets; delete the removed pairs, insert the
added ones, and log one `permission_update` row.  The whole operation
is wrapped in `transaction.atomic`, so an error leaves the store
untouched. -/
def updateEventPermissions (db : Db) (eventId : Nat)
    (permissionsData : List (Nat × Role)) (actor : UserRow) : Except SvcError Db :=
  match db.events.find? (fun e => e.id == eventId) with
  | none => Except.error SvcError.notFound
  | some _ =>
    if db.perms.any (fun q => q.event == eventId && q.user == actor.id
                               && decide (q.role = Role.owner)) = false then
      Except.error SvcError.validation
    else
      let current := (db.perms.filter (fun q => q.event == eventId)).map
        (fun q => (q.user, q.role))
      let desired := permissionsData.dedup
      let toRemove := current.filter (fun pr => decide (pr ∉ desired))
      let toAdd := desired.filter (fun pr => decide (pr ∉ current))
      let remaining := db.perms.filter
        (fun q => decide (¬ (q.event = eventId ∧ (q.user, q.role) ∈ toRemove)))
      let db1 := { db with perms := remaining }
      match addPermRows eventId db1 toAdd with
      | Except.error e => Except.error e
      | Except.ok db2 => Except.ok (appendLog db2 eventId actor.id ChangeType.permission_update)

/-! ## Version chain (Event.create_version, Event.rollback_to_version,
EventDetailView) -/

/-- The query `Event.objects.filter(Q(id=root.id) | Q(parent_version=root))`. -/
def lineageOf (db : Db) (rootId : Nat) : List EventRow :=
  db.events.filter (fun e => e.id == rootId || e.parent_version == some rootId)

/-- The query `...order_by("-version").first()`: a row of maximal
`version` (the first such row in table order on ties). -/
def maxByVersion (l : List EventRow) : Option EventRow :=
  l.foldl (fun acc e =>
    match acc with
    | none => some e
    | some m => if e.version > m.version then some e else some m) none

/-- Set the `is_latest` flag of the row with the given id. -/
def setIsLatest (db : Db) (id : Nat) (b : Bool) : Db :=
  { db with events := db.events.map (fun e => if e.id = id then { e with is_latest := b } else e) }

/-- Overwrite the row with the given id. -/
def replaceEvent (db : Db) (id : Nat) (row : EventRow) : Db :=
  { db with events := db.events.map (fun e => if e.id = id then row else e) }

/-- Sequentially re-create the given permission rows on the event
`newId`; each create runs `EventPermission.save` and may raise. -/
def copyPermsList (newId : Nat) : Db → List PermRow → Except SvcError Db
  | db, [] => Except.ok db
  | db, q :: rest =>
    match savePermission db { id := freshPermId db, event := newId, user := q.user,
                              role := q.role, granted_by := q.granted_by } with
    | Except.error e => Except.error e
    | Except.ok db1 => copyPermsList newId db1 rest

/-- Copy every permission row of the root event onto the new version
(`for permission in root_event.permissions.all(): EventPermission.objects.create(...)`). -/
def copyRootPerms (db : Db) (rootId newId : Nat) : Except SvcError Db :=
  copyPermsList newId db (db.perms.filter (fun q => q.event == rootId))

/-- The row inserted by `Event.create_version`: all content fields are
copied from the current latest row, `version` is incremented,
`is_latest` is set, `parent_version` points at the root and
`updated_by` is the acting user.  Participants and `parent_event` are
not copied. -/
def freshVersionRow (latest : EventRow) (rootId newId userId : Nat) : EventRow :=
  { id := newId
    title := latest.title
    description := latest.description
    start_date := latest.start_date
    end_date := latest.end_date
    location := latest.location
    owner := latest.owner
    created_by := latest.created_by
    updated_by := some userId
    version := latest.version + 1
    is_latest := true
    parent_version := some rootId
    is_recurring := latest.is_recurring
    recurrence_pattern := latest.recurrence_pattern
    recurrence_end_date := latest.recurrence_end_date
    custom_recurrence := latest.custom_recurrence
    parent_event := none
    participants := [] }

/-- The store after `create_version` has flipped the old latest row and
inserted the fresh version row, but before the permission copy. -/
def preCopyState (db : Db) (latest : EventRow) (rootId newId userId : Nat) : Db :=
  let db1 := setIsLatest db latest.id false
  { db1 with events := db1.events ++ [freshVersionRow latest rootId newId userId] }

/-- The id given to the row inserted by `create_version`. -/
def newIdOf (db : Db) (latest : EventRow) : Nat :=
  freshEventId (setIsLatest db latest.id false)

/-- Model of `Event.create_version`: find the latest row of the lineage
(root included in the query), flip its `is_latest` off, insert the
copied row, then copy the root's permissions onto it.  Returns the
updated store and the new row. -/
def createVersion (db : Db) (selfRow : EventRow) (userId : Nat) :
    Except SvcError (Db × EventRow) :=
  let rootId := rootIdOf selfRow
  match maxByVersion (lineageOf db rootId) with
  | none => Except.error SvcError.noneTypeError
  | some latest =>
    let newId := newIdOf db latest
    let newRow := freshVersionRow latest rootId newId userId
    match copyRootPerms (preCopyState db latest rootId newId userId) rootId newId with
    | Except.error e => Except.error e
    | Except.ok db3 => Except.ok (db3, newRow)

/-- Model of `Event.rollback_to_version`.  The latest-row query here is
`Event.objects.filter(parent_version=self.parent_version or self)` —
unlike `create_version` it does NOT include the root row itself, so on
a single-version lineage it returns `None` and the subsequent
`latest_version.is_latest` access faults (`noneTypeError`).  Version 1
resolves to the root row, other numbers are looked up in the chain
(`versionNotFound` when absent, raised as
`ValueError("Version ... does not exist")`).  A new version is then
created from the current latest and its content fields are overwritten
with the target's values.

Here: the target-version resolution step of `rollback_to_version`. -/
def targetResolve (db : Db) (selfRow : EventRow) (versionNumber : Nat) :
    Except SvcError EventRow :=
  if versionNumber = 1 then
    match selfRow.parent_version with
    | none => Except.ok selfRow
    | some rid =>
      match db.events.find? (fun e => e.id == rid) with
      | some r => Except.ok r
      | none => Except.error SvcError.notFound
  else
    match db.events.find? (fun e => e.parent_version == some (rootIdOf selfRow)
                                     && e.version == versionNumber) with
    | some t => Except.ok t
    | none => Except.error SvcError.versionNotFound

/-- Model of `Event.rollback_to_version` itself (see `targetResolve`
for the documentation of the whole algorithm). -/
def rollbackToVersion (db : Db) (selfRow : EventRow) (versionNumber userId : Nat) :
    Except SvcError (Db × EventRow) :=
  let rootId := rootIdOf selfRow
  match maxByVersion (db.events.filter (fun e => e.parent_version == some rootId)) with
  | none => Except.error SvcError.noneTypeError
  | some latest =>
    if latest.is_latest = false then Except.error SvcError.notLatest
    else
      match targetResolve db selfRow versionNumber with
      | Except.error e => Except.error e
      | Except.ok target =>
        match createVersion db latest userId with
        | Except.error e => Except.error e
        | Except.ok (db1, newRow) =>
          let rolled := { newRow with
            title := target.title
            description := target.description
            start_date := target.start_date
            end_date := target.end_date
            location := target.location
            is_recurring := target.is_recurring
            recurrence_pattern := target.recurrence_pattern
            recurrence_end_date := target.recurrence_end_date
            custom_recurrence := target.custom_recurrence }
          Except.ok (replaceEvent db1 newRow.id rolled, rolled)

/-- Model of `EventDetailView.get_event`: resolve the requested row,
then return the latest row of its lineage (the same query as
`create_version`), after a `view` permission check against that latest
row. -/
def getEventLatest (db : Db) (pk : Nat) (actor : UserRow) : Except SvcError EventRow :=
  match db.events.find? (fun e => e.id == pk) with
  | none => Except.error SvcError.notFound
  | some ev =>
    match maxByVersion (lineageOf db (rootIdOf ev)) with
    | none => Except.error SvcError.noneTypeError
    | some latest =>
      if hasEventPermission db actor latest.id PermType.view = false then
        Except.error SvcError.permissionDenied
      else Except.ok latest

/-- Model of `EventDetailView.put` for a request body updating the
title.  The source calls `event.create_version(request.user)` — which
flips the stored row's `is_latest` off through a FRESH queryset copy —
and then `serializer.save(updated_by=request.user, version=new_version.version)`,
which writes the STALE in-memory `event` object (fetched before the
version bump, so still carrying `is_latest=True`) back over the
original row, with only `title`, `updated_by` and `version`
refreshed.  Afterwards one `update` changelog row is appended; the
per-field `field_update` loop compares `getattr(event, field)` against
the request value on the instance the serializer has ALREADY updated,
so it never finds a difference and never writes a row. -/
def putUpdate (db : Db) (pk : Nat) (actor : UserRow) (newTitle : String) :
    Except SvcError Db :=
  match getEventLatest db pk actor with
  | Except.error e => Except.error e
  | Except.ok ev =>
    if hasEventPermission db actor ev.id PermType.edit = false then
      Except.error SvcError.permissionDenied
    else
      match createVersion db ev actor.id with
      | Except.error e => Except.error e
      | Except.ok (db1, newRow) =>
        let staleSaved := { ev with
          title := newTitle
          updated_by := some actor.id
          version := newRow.version }
        let db2 := replaceEvent db1 ev.id staleSaved
        let db3 := appendLog db2 ev.id actor.id ChangeType.update
        Except.ok db3

/-! ## EventService.create_event and EventService.delete_event -/

/-- The request payload of `EventService.create_event`, with the
`data.get(..., default)` defaults made explicit. -/
structure CreateData where
  title : String
  description : String
  start_date : Nat
  end_date : Nat
  location : String
  participants : List Nat
  force_create : Bool
  is_recurring : Bool
  recurrence_pattern : Option RecPattern
  recurrence_end_date : Option Nat
  custom_recurrence : Option CustomRec
deriving DecidableEq, Repr

/-- The transient candidate row whose field values the constructor call
`Event(start_date=..., end_date=..., participants=data.get("participants", []))`
describes; its freshly generated uuid matches no stored row.  The call
itself never completes in the source — Django raises `TypeError` for
the many-to-many `participants` keyword (see `createEvent`) — so this
row exists only as the candidate the intended conflict check would
have used (`createEventBody`) and as a plain interval candidate for
the suggestion routine. -/
def tempEventOf (db : Db) (data : CreateData) : EventRow :=
  { id := freshEventId db
    title := ""
    description := ""
    start_date := data.start_date
    end_date := data.end_date
    location := ""
    owner := none
    created_by := none
    updated_by := none
    version := 1
    is_latest := true
    parent_version := none
    is_recurring := false
    recurrence_pattern := none
    recurrence_end_date := none
    custom_recurrence := none
    parent_event := none
    participants := data.participants }

/-- Projection `conflicts.values("id", "title", "start_date", "end_date")`. -/
def conflictValues (l : List EventRow) : List (Nat × String × Nat × Nat) :=
  l.map (fun e => (e.id, e.title, e.start_date, e.end_date))

/-- Persist the generated recurring instances, assigning each a fresh
id, and grant the creator an `owner` permission on each. -/
def saveInstances (userId : Nat) : Db → List EventRow → Except SvcError Db
  | db, [] => Except.ok db
  | db, inst :: rest =>
    let iid := freshEventId db
    let db1 := { db with events := db.events ++ [{ inst with id := iid }] }
    match savePermission db1 { id := freshPermId db1, event := iid, user := userId,
                               role := Role.owner, granted_by := none } with
    | Except.error e => Except.error e
    | Except.ok db2 => saveInstances userId db2 rest

/-- The conflict check and creation flow that the text of
`EventService.create_event` describes from its conflict check onward:
when conflicts exist and `force_create` is unset, raise
`ValidationError` carrying the conflict projection and the three
suggested slots (an infinite suggestion loop is surfaced as
`diverged`); otherwise validate the dates (`Event.save`), insert the
event (version 1, creator as owner), grant the creator the `owner`
permission, append a `create` changelog row, and expand-and-persist
recurring instances.  In the source this flow is UNREACHABLE: the
function's first statement already raises (see `createEvent`); it is
modeled here to document what the reachable part after the candidate
construction would do. -/
def createEventBody (db : Db) (data : CreateData) (userId : Nat) : Except SvcError Db :=
  let temp := tempEventOf db data
  let conflicts := checkConflictsSvc db.events temp (some data.participants)
  if conflicts.isEmpty = false ∧ data.force_create = false then
    match suggestAlternativeSlots db.events temp 3 with
    | some sugg => Except.error (SvcError.conflict (conflictValues conflicts) sugg)
    | none => Except.error SvcError.diverged
  else
    if data.start_date > data.end_date then Except.error SvcError.validation
    else if data.is_recurring = true ∧ data.recurrence_pattern = none then
      Except.error SvcError.validation
    else
      let eid := freshEventId db
      let eventRow : EventRow :=
        { id := eid
          title := data.title
          description := data.description
          start_date := data.start_date
          end_date := data.end_date
          location := data.location
          owner := some userId
          created_by := some userId
          updated_by := none
          version := 1
          is_latest := true
          parent_version := none
          is_recurring := data.is_recurring
          recurrence_pattern := data.recurrence_pattern
          recurrence_end_date := data.recurrence_end_date
          custom_recurrence := data.custom_recurrence
          parent_event := none
          participants := [] }
      let db1 := { db with events := db.events ++ [eventRow] }
      match savePermission db1 { id := freshPermId db1, event := eid, user := userId,
                                 role := Role.owner, granted_by := none } with
      | Except.error e => Except.error e
      | Except.ok db2 =>
        let db3 := appendLog db2 eid userId ChangeType.create
        if eventRow.is_recurring then
          saveInstances userId db3 (generateRecurringInstances eventRow none)
        else Except.ok db3

/-- Model of `EventService.create_event` as it actually executes.  Its
FIRST statement builds the transient candidate with
`Event(start_date=..., end_date=..., participants=data.get("participants", []))`
— but `participants` is a `ManyToManyField`, and Django (2.0 onward for
the assignment; this repository needs Django 3.1 or later for
`models.JSONField`) raises
`TypeError: Direct assignment to the forward side of a many-to-many set is prohibited`
when a many-to-many keyword reaches a model constructor
(`Model.__init__` catches only `AttributeError`/`FieldDoesNotExist`).
Nothing after that line — the conflict check, the structured conflict
error, the insertions (`createEventBody`) — is reachable, and the
`transaction.atomic` wrapper persists nothing. -/
def createEvent (_db : Db) (_data : CreateData) (_userId : Nat) : Except SvcError Db :=
  Except.error SvcError.typeError

/-- Cascade deletion of a set of event rows: permission and changelog
rows referencing a deleted event are removed (`on_delete=CASCADE`),
while `parent_version` and `parent_event` references from surviving
rows are nulled (`on_delete=SET_NULL`). -/
def deleteEventsWhere (db : Db) (p : EventRow → Bool) : Db :=
  let ids := (db.events.filter p).map (fun e => e.id)
  let survivors := (db.events.filter (fun e => p e = false)).map (fun e =>
    let e1 := match e.parent_version with
              | some r => if ids.any (fun i => i == r) then { e with parent_version := none }
                          else e
              | none => e
    match e1.parent_event with
    | some r => if ids.any (fun i => i == r) then { e1 with parent_event := none } else e1
    | none => e1)
  { events := survivors
    perms := db.perms.filter (fun q => (ids.any (fun i => i == q.event)) = false)
    logs := db.logs.filter (fun l => (ids.any (fun i => i == l.event)) = false)
    users := db.users }

/-- Model of `EventService.delete_event`: require an `owner` permission
row for the actor on the event; delete the generated instances of a
recurring template; append a `delete` changelog row; then delete the
event row itself — and with it, by the `CASCADE` rule on
`EventChangeLog.event`, every changelog row of that event, including
the entry just written.  (The service's own changelog call passes
`action=`/`changes=` keywords that are not `EventChangeLog` fields and
would itself raise `TypeError`; the write-then-delete-and-cascade
behavior modeled here is the one the wired `EventDetailView.delete`
path exhibits, which writes the entry through the correctly-typed
`create_changelog_entry` and then calls `event.delete()`.) -/
def deleteEvent (db : Db) (eventId : Nat) (actor : UserRow) : Except SvcError Db :=
  match db.events.find? (fun e => e.id == eventId) with
  | none => Except.error SvcError.notFound
  | some ev =>
    if db.perms.any (fun q => q.event == eventId && q.user == actor.id
                               && decide (q.role = Role.owner)) = false then
      Except.error SvcError.validation
    else
      let db1 := if ev.is_recurring && ev.parent_event == none then
                   deleteEventsWhere db (fun e => e.parent_event == some eventId)
                 else db
      let db2 := appendLog db1 eventId actor.id ChangeType.delete
      Except.ok (deleteEventsWhere db2 (fun e => e.id == eventId))

/-! ## Invariant predicates -/

/-- Number of rows of a lineage carrying `is_latest = true`; the
specified invariant demands this is always exactly 1. -/
def latestCountOfLineage (db : Db) (rootId : Nat) : Nat :=
  ((lineageOf db rootId).filter (fun e => e.is_latest)).length

/-- At most one `owner` permission row per event. -/
def OwnerUnique (db : Db) (e : Nat) : Prop :=
  ∀ q ∈ db.perms, ∀ r ∈ db.perms,
    q.event = e → r.event = e → q.role = Role.owner → r.role = Role.owner → q = r

/-! ## Concrete fixtures used by the closed theorems and witnesses -/

/-- User 1, the owner of the fixture event. -/
def userA : UserRow := { id := 1, is_superuser := false }

/-- User 2, holding an `editor` permission on the fixture event. -/
def userB : UserRow := { id := 2, is_superuser := false }

/-- User 3, holding no permission on the fixture event. -/
def userC : UserRow := { id := 3, is_superuser := false }

/-- User 4, holding a `viewer` permission on the fixture event. -/
def userV : UserRow := { id := 4, is_superuser := false }

/-- A single stored event `[0, 60)` owned by user 1. -/
def eventOne : EventRow :=
  { id := 1
    title := "E1"
    description := ""
    start_date := 0
    end_date := 60
    location := ""
    owner := some 1
    created_by := some 1
    updated_by := some 1
    version := 1
    is_latest := true
    parent_version := none
    is_recurring := false
    recurrence_pattern := none
    recurrence_end_date := none
    custom_recurrence := none
    parent_event := none
    participants := [] }

/-- The owner permission of user 1 on the fixture event. -/
def permOwnerA : PermRow := { id := 10, event := 1, user := 1, role := Role.owner, granted_by := some 1 }

/-- The editor permission of user 2 on the fixture event. -/
def permEditorB : PermRow := { id := 11, event := 1, user := 2, role := Role.editor, granted_by := some 1 }

/-- The viewer permission of user 4 on the fixture event. -/
def permViewerV : PermRow := { id := 12, event := 1, user := 4, role := Role.viewer, granted_by := some 1 }

/-- The fixture store: one event, its three permissions, one `create`
changelog row. -/
def dbFix : Db :=
  { events := [eventOne]
    perms := [permOwnerA, permEditorB, permViewerV]
    logs := [{ id := 1, event := 1, user := some 1, change_type := ChangeType.create }]
    users := [userA, userB, userC, userV] }

/-- Root (version 1, superseded) of a two-version lineage. -/
def rootTwo : EventRow :=
  { eventOne with title := "Original", description := "first", location := "HQ",
                  is_latest := false }

/-- Latest row (version 2) of the two-version lineage. -/
def childTwo : EventRow :=
  { eventOne with id := 2, title := "Edited", description := "second", start_date := 100,
                  end_date := 160, version := 2, parent_version := some 1 }

/-- Fixture store holding the two-version lineage. -/
def dbTwo : Db :=
  { events := [rootTwo, childTwo]
    perms := [permOwnerA]
    logs := []
    users := [userA] }

/-- A daily recurring template starting at day 0 with a one-hour
duration. -/
def templDaily : EventRow :=
  { eventOne with id := 5, title := "Standup", description := "d", location := "L",
                  is_recurring := true, recurrence_pattern := some RecPattern.daily }

/-- The creation payload `[30, 90)` of the conflict scenario, without
`force_create`. -/
def createData5 : CreateData :=
  { title := "E2"
    description := ""
    start_date := 30
    end_date := 90
    location := ""
    participants := []
    force_create := false
    is_recurring := false
    recurrence_pattern := none
    recurrence_end_date := none
    custom_recurrence := none }

/-! # Theorems -/

/-- C1.  The claim states that after every completed mutating operation
exactly one row of a lineage has `is_latest = true`.  The code violates
it: `EventDetailView.put` first runs `create_version` (which flips the
stored row's flag off through a fresh queryset object) and then saves
the stale in-memory instance — still carrying `is_latest=True` — back
over the old row.  Starting from a well-formed single-latest store, one
title update leaves TWO rows of the lineage with `is_latest = true`
(and two rows sharing the same version number). -/
theorem put_update_breaks_single_latest :
    latestCountOfLineage dbFix 1 = 1 ∧
    (putUpdate dbFix 1 userA "Renamed").map (fun d => latestCountOfLineage d 1) =
      Except.ok 2 :=
  ⟨rfl, rfl⟩

/-- C2.  The claim states that a committed mutation always leaves its
changelog row behind.  The code violates it on delete:
`EventChangeLog.event` is declared `on_delete=CASCADE`, so
`EventService.delete_event` — which writes a `delete` changelog row and
then deletes the event — cascades away every changelog row of the
event, including the entry it just wrote.  From a store with one event
and one `create` changelog row, a successful delete leaves zero
changelog rows. -/
theorem delete_event_cascades_changelog :
    dbFix.logs.length = 1 ∧
    (deleteEvent dbFix 1 userA).map (fun d => d.logs.length) = Except.ok 0 :=
  ⟨rfl, rfl⟩

/-- C3 counterexample.  The claim states that revoking a permission
whose role is `owner` fails with `CannotRemoveOwner`.  The code has no
such check: `EventPermissionDetailView.delete` deletes any permission
row after a mere `edit` check, so the editor (user 2) successfully
deletes the owner permission row (id 10, role `owner`), leaving the
event with zero owner permissions. -/
theorem delete_view_removes_owner_permission :
    permOwnerA.role = Role.owner ∧
    (deletePermissionView dbFix 1 10 userB).map
        (fun d => (d.perms.filter (fun q => q.event == 1 && decide (q.role = Role.owner))).length) =
      Except.ok 0 :=
  ⟨rfl, rfl⟩

/-- C4 counterexample.  The claim states that every permission-modifying
operation fails for an actor who is neither the owner nor a superuser.
The individual permission endpoints only require `edit`, which editors
also hold: user 2 (an editor, not an owner, not a superuser)
successfully adds a viewer permission for user 3. -/
theorem editor_can_add_permission :
    (dbFix.perms.filter (fun q => q.user == userB.id && decide (q.role = Role.owner))).length = 0 ∧
    userB.is_superuser = false ∧
    (addPermissionView dbFix 1 userB 3 Role.viewer).map (fun d => d.perms.length) =
      Except.ok 4 :=
  ⟨rfl, rfl, rfl⟩

/-- C8 counterexample.  The claim states a field appears in the diff
iff its values differ, with a missing value different from any payload
value.  The code guard `if not self.previous_data or not self.new_data:
return {}` makes the diff of an EMPTY map against a non-empty one
empty: `title` differs (missing vs `"x"`) yet is absent from the diff. -/
theorem diff_empty_guard_counterexample :
    dget ([] : JMap) "title" ≠ dget [("title", some "x")] "title" ∧
    "title" ∉ (diffMaps ([] : JMap) [("title", some "x")]).map (fun e => e.1) := by
  constructor
  · decide
  · decide

/-- C9 counterexample.  The claim states that rolling back to an
existing version (k = 1 resolving to the root) creates a new latest
row.  On a single-version lineage the latest-row query of
`rollback_to_version` — `filter(parent_version=self.parent_version or self)`
— excludes the root itself and returns `None`, so the call faults on
`latest_version.is_latest` (an `AttributeError`) instead of rolling
back, although version 1 exists. -/
theorem rollback_single_version_faults :
    rollbackToVersion dbFix eventOne 1 7 = Except.error SvcError.noneTypeError :=
  rfl

/-! ## Helper lemmas: suggestion loop -/

/-- Every stored end instant is bounded by `maxEnd`. -/
theorem maxEnd_le (cal : List EventRow) : ∀ ev ∈ cal, ev.end_date ≤ maxEnd cal := by
  induction cal with
  | nil => intro ev h; cases h
  | cons e rest ih =>
    intro ev h
    rcases List.mem_cons.mp h with h | h
    · subst h
      simp [maxEnd]
    · have := ih ev h
      simp only [maxEnd, List.foldr_cons]
      calc ev.end_date ≤ maxEnd rest := this
        _ ≤ max e.end_date (maxEnd rest) := le_max_right _ _

/-- A probe starting at or after every stored end cannot conflict. -/
theorem hasConflict_false_of_ge (cal : List EventRow) (s e : Nat)
    (h : maxEnd cal ≤ s) : hasConflict cal s e = false := by
  unfold hasConflict
  rw [List.any_eq_false]
  intro ev hev
  have h1 := maxEnd_le cal ev hev
  simp only [overlaps, Bool.and_eq_true, decide_eq_true_eq, not_and]
  intro
  omega

/-- Completeness of the fueled suggestion loop: with a positive
duration, once `n` advance steps are guaranteed to push the probe past
every stored end, fuel `n + need` suffices to collect exactly `need`
non-conflicting slots, each of the duration, starting at or after `s`. -/
theorem suggestLoop_complete (cal : List EventRow) (d : Nat) (hd : 0 < d) :
    ∀ fuel need n s, maxEnd cal ≤ s + n * d → n + need ≤ fuel →
      ∃ l, suggestLoop cal d s need fuel = some l ∧ l.length = need ∧
        ∀ sl ∈ l, s ≤ sl.start_date ∧ sl.end_date = sl.start_date + d ∧
          hasConflict cal sl.start_date sl.end_date = false := by
  intro fuel
  induction fuel with
  | zero =>
    intro need n s _ hF
    have hneed : need = 0 := by omega
    subst hneed
    exact ⟨[], rfl, rfl, by simp⟩
  | succ fuel ih =>
    intro need n s hM hF
    cases need with
    | zero => exact ⟨[], rfl, rfl, by simp⟩
    | succ need =>
      by_cases hc : hasConflict cal s (s + d) = true
      · have hs : s < maxEnd cal := by
          obtain ⟨ev, hmem, hov⟩ := List.any_eq_true.mp hc
          have h1 : s < ev.end_date := by
            simp only [overlaps, Bool.and_eq_true, decide_eq_true_eq] at hov
            omega
          have h2 := maxEnd_le cal ev hmem
          omega
        have hn : n ≠ 0 := by
          rintro rfl
          simp at hM
          omega
        obtain ⟨m, rfl⟩ := Nat.exists_eq_succ_of_ne_zero hn
        have hmul : (m + 1) * d = m * d + d := by ring
        rw [hmul] at hM
        have hM2 : maxEnd cal ≤ (s + d) + m * d := by omega
        obtain ⟨l, hl, hlen, hprops⟩ := ih (need + 1) m (s + d) hM2 (by omega)
        refine ⟨l, ?_, hlen, ?_⟩
        · simp only [suggestLoop, hc, if_true]
          exact hl
        · intro sl hsl
          obtain ⟨h1, h2, h3⟩ := hprops sl hsl
          exact ⟨by omega, h2, h3⟩
      · have hM2 : maxEnd cal ≤ (s + d) + n * d := by omega
        obtain ⟨l, hl, hlen, hprops⟩ := ih need n (s + d) hM2 (by omega)
        refine ⟨⟨s, s + d⟩ :: l, ?_, by simp [hlen], ?_⟩
        · simp only [suggestLoop, hc, if_false, Bool.false_eq_true]
          rw [hl]
          rfl
        · intro sl hsl
          rcases List.mem_cons.mp hsl with h | h
          · subst h
            refine ⟨le_refl s, rfl, ?_⟩
            simpa using hc
          · obtain ⟨h1, h2, h3⟩ := hprops sl h
            exact ⟨by omega, h2, h3⟩

/-- Specification of `suggestAlternativeSlots`: for a candidate of
positive duration, the built-in fuel is sufficient — the loop returns
exactly `num` non-conflicting slots of the candidate duration, starting
at or after the candidate end. -/
theorem suggestAlternativeSlots_spec (cal : List EventRow) (event : EventRow) (num : Nat)
    (hd : 0 < event.end_date - event.start_date) :
    ∃ l, suggestAlternativeSlots cal event num = some l ∧ l.length = num ∧
      ∀ sl ∈ l, event.end_date ≤ sl.start_date ∧
        sl.end_date = sl.start_date + (event.end_date - event.start_date) ∧
        hasConflict cal sl.start_date sl.end_date = false := by
  have hM : maxEnd cal ≤ event.end_date + maxEnd cal * (event.end_date - event.start_date) := by
    have h1 : maxEnd cal ≤ maxEnd cal * (event.end_date - event.start_date) :=
      Nat.le_mul_of_pos_right _ hd
    omega
  exact suggestLoop_complete cal (event.end_date - event.start_date) hd
    (maxEnd cal + num) num (maxEnd cal) event.end_date hM (le_refl _)

/-- C6.  For every calendar, every candidate of positive duration and
every requested count, the slot-suggestion search terminates: probing
consecutive intervals of the candidate duration from `candidate.end`,
it returns exactly `count` non-conflicting slots within the explicit
iteration bound `maxEnd cal + count` built into the model (the probes
pass the last stored end after at most `maxEnd cal` advances, after
which every probe succeeds) — it never runs out of fuel. -/
theorem suggest_slots_terminates (cal : List EventRow) (event : EventRow) (num : Nat)
    (hd : 0 < event.end_date - event.start_date) :
    ∃ l, suggestAlternativeSlots cal event num = some l ∧ l.length = num ∧
      ∀ sl ∈ l, event.end_date ≤ sl.start_date ∧
        sl.end_date = sl.start_date + (event.end_date - event.start_date) ∧
        hasConflict cal sl.start_date sl.end_date = false :=
  suggestAlternativeSlots_spec cal event num hd

/-- Witness for C6 at the concrete fixture: the candidate `[30, 90)`
with the one-event calendar. -/
theorem suggest_slots_terminates_witness :
    0 < (tempEventOf dbFix createData5).end_date - (tempEventOf dbFix createData5).start_date ∧
    ∃ l, suggestAlternativeSlots dbFix.events (tempEventOf dbFix createData5) 3 = some l ∧
      l.length = 3 ∧
      ∀ sl ∈ l, (tempEventOf dbFix createData5).end_date ≤ sl.start_date ∧
        sl.end_date = sl.start_date +
          ((tempEventOf dbFix createData5).end_date - (tempEventOf dbFix createData5).start_date) ∧
        hasConflict dbFix.events sl.start_date sl.end_date = false :=
  ⟨by decide, suggest_slots_terminates dbFix.events (tempEventOf dbFix createData5) 3 (by decide)⟩

/-- C5.  The claim says a conflicting, non-forced create request fails
with a structured conflict error carrying the conflicting events and 3
suggested slots, persisting nothing.  The code cannot do this: the
first statement of `EventService.create_event` passes the
many-to-many `participants` keyword to the `Event` constructor, which
raises `TypeError` in Django 3.1+ before the conflict check runs — so
at the spec's own scenario (stored `[0, 60)`, candidate `[30, 90)`
without `force_create`, a genuine conflict) the call fails with the
bare `TypeError`, not the structured conflict error (nothing is
persisted, but only because the whole operation always aborts). -/
theorem create_event_type_error :
    checkConflictsSvc dbFix.events (tempEventOf dbFix createData5)
      (some createData5.participants) ≠ [] ∧
    createData5.force_create = false ∧
    createEvent dbFix createData5 2 = Except.error SvcError.typeError :=
  ⟨by decide, rfl, rfl⟩

/-- The conflict contract that the unreachable remainder of
`create_event` (`createEventBody`) would have satisfied: a candidate of
positive duration with conflicts and `force_create` unset yields the
structured error carrying the `values(...)` projection of the
conflicting events and exactly 3 suggested slots starting at or after
the candidate end (documentation of the intended flow; the source
never reaches it, see `create_event_type_error`). -/
theorem create_event_body_conflict_error (db : Db) (data : CreateData) (userId : Nat)
    (hdur : data.start_date < data.end_date)
    (hforce : data.force_create = false)
    (hconf : checkConflictsSvc db.events (tempEventOf db data) (some data.participants) ≠ []) :
    ∃ sugg, createEventBody db data userId =
        Except.error (SvcError.conflict
          (conflictValues (checkConflictsSvc db.events (tempEventOf db data)
            (some data.participants)))
          sugg) ∧
      sugg.length = 3 ∧ ∀ sl ∈ sugg, data.end_date ≤ sl.start_date := by
  have hdur2 : 0 < (tempEventOf db data).end_date - (tempEventOf db data).start_date := by
    simp only [tempEventOf]
    omega
  obtain ⟨l, hl, hlen, hprops⟩ := suggestAlternativeSlots_spec db.events (tempEventOf db data) 3 hdur2
  have hempty : (checkConflictsSvc db.events (tempEventOf db data)
      (some data.participants)).isEmpty = false := by
    cases h : (checkConflictsSvc db.events (tempEventOf db data)
        (some data.participants)).isEmpty
    · rfl
    · exact absurd (List.isEmpty_iff.mp h) hconf
  refine ⟨l, ?_, hlen, fun sl hsl => ?_⟩
  · simp only [createEventBody]
    rw [if_pos ⟨hempty, hforce⟩, hl]
  · have := (hprops sl hsl).1
    simpa [tempEventOf] using this

/-- Concrete instantiation of the intended-flow contract: creating
`[30, 90)` against the stored `[0, 60)` without `force_create`. -/
theorem create_event_body_conflict_error_witness :
    createData5.start_date < createData5.end_date ∧
    createData5.force_create = false ∧
    checkConflictsSvc dbFix.events (tempEventOf dbFix createData5)
      (some createData5.participants) ≠ [] ∧
    ∃ sugg, createEventBody dbFix createData5 2 =
        Except.error (SvcError.conflict
          (conflictValues (checkConflictsSvc dbFix.events (tempEventOf dbFix createData5)
            (some createData5.participants)))
          sugg) ∧
      sugg.length = 3 ∧ ∀ sl ∈ sugg, createData5.end_date ≤ sl.start_date :=
  ⟨by decide, rfl, by decide,
    create_event_body_conflict_error dbFix createData5 2 (by decide) rfl (by decide)⟩

/-- C7.  Membership in both conflict checkers is characterized exactly:
an event is reported iff it is stored, `existing.start < candidate.end`,
`existing.end > candidate.start`, and its id differs from the
candidate's; for the service variant, when a non-empty participant list
is supplied the event must additionally share at least one participant
(an empty supplied list is falsy in the source and disables the
filter, hence the hypothesis). -/
theorem check_conflicts_iff (cal : List EventRow) (cand : EventRow)
    (ps : Option (List Nat)) (hps : ps ≠ some []) :
    (∀ ev, ev ∈ checkConflictsSvc cal cand ps ↔
        ev ∈ cal ∧ ev.start_date < cand.end_date ∧ ev.end_date > cand.start_date ∧
          ev.id ≠ cand.id ∧ (∀ l, ps = some l → ∃ p ∈ l, p ∈ ev.participants)) ∧
    (∀ ev, ev ∈ checkConflictsMethod cal cand ↔
        ev ∈ cal ∧ ev.start_date < cand.end_date ∧ ev.end_date > cand.start_date ∧
          ev.id ≠ cand.id) := by
  constructor
  · intro ev
    match ps with
    | none =>
      simp only [checkConflictsSvc, List.mem_filter, overlaps, Bool.and_eq_true,
        decide_eq_true_eq]
      constructor
      · rintro ⟨⟨hmem, h1, h2⟩, h3⟩
        exact ⟨hmem, h1, h2, h3, by rintro l ⟨⟩⟩
      · rintro ⟨hmem, h1, h2, h3, _⟩
        exact ⟨⟨hmem, h1, h2⟩, h3⟩
    | some l =>
      match l with
      | [] => exact absurd rfl hps
      | p :: rest =>
        simp only [checkConflictsSvc, List.isEmpty_cons, if_false, Bool.false_eq_true,
          List.mem_filter, overlaps, Bool.and_eq_true, decide_eq_true_eq,
          List.any_eq_true, beq_iff_eq]
        constructor
        · rintro ⟨⟨⟨hmem, h1, h2⟩, h3⟩, q, hq, hq2⟩
          refine ⟨hmem, h1, h2, h3, ?_⟩
          rintro l' hl'
          cases hl'
          exact ⟨q, hq, by obtain ⟨r, hr, rfl⟩ := hq2; exact hr⟩
        · rintro ⟨hmem, h1, h2, h3, hpart⟩
          obtain ⟨q, hq, hq2⟩ := hpart (p :: rest) rfl
          exact ⟨⟨⟨hmem, h1, h2⟩, h3⟩, q, hq, ⟨q, hq2, rfl⟩⟩
  · intro ev
    simp only [checkConflictsMethod, List.mem_filter, overlaps, Bool.and_eq_true,
      decide_eq_true_eq]
    tauto

/-- Witness for C7, at the concrete instants of the spec scenario:
`[600, 660)` (10:00 to 11:00) does not conflict with the touching
candidate `[660, 720)` but does conflict with the overlapping candidate
`[630, 690)`; the characterization itself is instantiated at the
fixture event. -/
theorem check_conflicts_iff_witness :
    ((none : Option (List Nat)) ≠ some []) ∧
    (∀ ev, ev ∈ checkConflictsSvc [{ eventOne with start_date := 600, end_date := 660 }]
        { eventOne with id := 2, start_date := 660, end_date := 720 } none ↔
        ev ∈ [{ eventOne with start_date := 600, end_date := 660 }] ∧
          ev.start_date < 720 ∧ ev.end_date > 660 ∧ ev.id ≠ 2 ∧
          (∀ l, (none : Option (List Nat)) = some l → ∃ p ∈ l, p ∈ ev.participants)) ∧
    ({ eventOne with start_date := 600, end_date := 660 } ∉
        checkConflictsSvc [{ eventOne with start_date := 600, end_date := 660 }]
          { eventOne with id := 2, start_date := 660, end_date := 720 } none) ∧
    ({ eventOne with start_date := 600, end_date := 660 } ∈
        checkConflictsSvc [{ eventOne with start_date := 600, end_date := 660 }]
          { eventOne with id := 2, start_date := 630, end_date := 690 } none) := by
  refine ⟨by decide, ?_, by decide, by decide⟩
  exact (check_conflicts_iff [{ eventOne with start_date := 600, end_date := 660 }]
    { eventOne with id := 2, start_date := 660, end_date := 720 } none (by decide)).1

/-! ## Helper lemmas: changelog diff -/

/-- A key outside a map's key list looks up to `none`. -/
theorem dget_eq_none_of_not_mem (m : JMap) (k : String) (h : k ∉ dkeys m) :
    dget m k = none := by
  induction m with
  | nil => rfl
  | cons kv rest ih =>
    simp only [dkeys, List.map_cons, List.mem_cons, not_or] at h
    obtain ⟨h1, h2⟩ := h
    have hb : (k == kv.1) = false := by simpa using h1
    simp only [dget, List.lookup, hb]
    exact ih (by simpa [dkeys] using h2)

/-- Membership characterization of a non-degenerate diff entry. -/
theorem mem_diffMaps (a b : JMap) (k : String) (o n : Option String)
    (ha : ¬(a = ([] : JMap) ∨ b = ([] : JMap))) :
    (k, o, n) ∈ diffMaps a b ↔
      (k ∈ dkeys a ∨ k ∈ dkeys b) ∧ dget a k ≠ dget b k ∧ o = dget a k ∧ n = dget b k := by
  unfold diffMaps
  rw [if_neg ha, List.mem_filterMap]
  constructor
  · rintro ⟨k', hk', hf⟩
    by_cases hc : dget a k' ≠ dget b k'
    · rw [if_pos hc] at hf
      have h1 := Option.some.inj hf
      obtain ⟨h2, h3⟩ := Prod.mk.inj h1
      obtain ⟨h4, h5⟩ := Prod.mk.inj h3
      subst h2
      rw [List.mem_dedup, List.mem_append] at hk'
      exact ⟨hk', hc, h4.symm, h5.symm⟩
    · rw [if_neg hc] at hf
      cases hf
  · rintro ⟨hk, hne, rfl, rfl⟩
    refine ⟨k, ?_, ?_⟩
    · rw [List.mem_dedup, List.mem_append]
      exact hk
    · rw [if_pos hne]

/-- C8 (amended).  The diff is idempotent, its keys are contained in the
union of the two key lists, it is symmetric under swapping the two maps
(same fields, old/new exchanged), and — provided BOTH maps are
non-empty — a field appears iff its looked-up values differ, a missing
or null value being different from any payload value.  When either map
is empty the source's truthiness guard returns the empty diff
unconditionally. -/
theorem diff_algebra :
    (∀ a : JMap, diffMaps a a = []) ∧
    (∀ a b : JMap, ∀ e ∈ diffMaps a b, e.1 ∈ dkeys a ++ dkeys b) ∧
    (∀ a b : JMap, a ≠ [] → b ≠ [] →
      ∀ k, k ∈ (diffMaps a b).map (fun e => e.1) ↔ dget a k ≠ dget b k) ∧
    (∀ (a b : JMap) (k : String) (o n : Option String),
      (k, o, n) ∈ diffMaps a b ↔ (k, n, o) ∈ diffMaps b a) ∧
    (∀ a b : JMap, a = [] ∨ b = [] → diffMaps a b = []) := by
  refine ⟨?_, ?_, ?_, ?_, ?_⟩
  · intro a
    unfold diffMaps
    by_cases h : a = ([] : JMap) ∨ a = ([] : JMap)
    · rw [if_pos h]
    · rw [if_neg h]
      rw [List.filterMap_eq_nil_iff]
      intro k _
      rw [if_neg (by simp)]
  · intro a b e he
    unfold diffMaps at he
    by_cases h : a = ([] : JMap) ∨ b = ([] : JMap)
    · rw [if_pos h] at he
      cases he
    · rw [if_neg h, List.mem_filterMap] at he
      obtain ⟨k', hk', hf⟩ := he
      by_cases hc : dget a k' ≠ dget b k'
      · rw [if_pos hc] at hf
        have h1 := Option.some.inj hf
        have h2 : e.1 = k' := by rw [← h1]
        rw [h2]
        exact List.mem_dedup.mp hk'
      · rw [if_neg hc] at hf
        cases hf
  · intro a b ha hb k
    have hg : ¬(a = ([] : JMap) ∨ b = ([] : JMap)) := by
      rintro (h | h)
      · exact ha h
      · exact hb h
    constructor
    · intro hmem
      obtain ⟨e, he, hfst⟩ := List.mem_map.mp hmem
      obtain ⟨k', o', n'⟩ := e
      obtain ⟨_, hne, rfl, rfl⟩ := (mem_diffMaps a b k' _ _ hg).mp he
      simp only at hfst
      rw [hfst] at hne
      exact hne
    · intro hne
      have hk : k ∈ dkeys a ∨ k ∈ dkeys b := by
        by_contra hcon
        push_neg at hcon
        rw [dget_eq_none_of_not_mem a k hcon.1, dget_eq_none_of_not_mem b k hcon.2] at hne
        exact hne rfl
      exact List.mem_map.mpr ⟨(k, dget a k, dget b k),
        (mem_diffMaps a b k _ _ hg).mpr ⟨hk, hne, rfl, rfl⟩, rfl⟩
  · intro a b k o n
    by_cases h : a = ([] : JMap) ∨ b = ([] : JMap)
    · have h2 : b = ([] : JMap) ∨ a = ([] : JMap) := h.symm
      unfold diffMaps
      rw [if_pos h, if_pos h2]
      simp
    · have h2 : ¬(b = ([] : JMap) ∨ a = ([] : JMap)) := fun hc => h hc.symm
      rw [mem_diffMaps a b k o n h, mem_diffMaps b a k n o h2]
      constructor
      · rintro ⟨hk, hne, rfl, rfl⟩
        exact ⟨hk.symm, fun hc => hne hc.symm, rfl, rfl⟩
      · rintro ⟨hk, hne, rfl, rfl⟩
        exact ⟨hk.symm, fun hc => hne hc.symm, rfl, rfl⟩
  · intro a b h
    unfold diffMaps
    rw [if_pos h]

/-- Witness for C8 at concrete maps: `A = [title ↦ "a", loc ↦ null]`,
`B = [title ↦ "b"]`. -/
theorem diff_algebra_witness :
    (([("title", some "a"), ("loc", none)] : JMap) ≠ []) ∧
    (([("title", some "b")] : JMap) ≠ []) ∧
    ("title" ∈ (diffMaps [("title", some "a"), ("loc", none)] [("title", some "b")]).map
        (fun e => e.1) ↔
      dget [("title", some "a"), ("loc", none)] "title" ≠ dget [("title", some "b")] "title") :=
  ⟨by decide, by decide,
    diff_algebra.2.2.1 [("title", some "a"), ("loc", none)] [("title", some "b")]
      (by decide) (by decide) "title"⟩

/-! ## Helper lemmas: recurrence expansion -/

/-- Closed form of the fueled expansion loop: with a positive step `d`
and enough fuel, the loop starting at `cur` emits exactly the instants
`cur + (i+1)*d` for `i < (bound - cur) / d`. -/
theorem genLoop_closed (t : EventRow) (bound d : Nat) (hstep : stepOf t = some d)
    (hd : 0 < d) :
    ∀ fuel cur, bound + 1 - cur ≤ fuel →
      genLoop t bound cur fuel =
        (List.range ((bound - cur) / d)).map (fun i => mkInstance t (cur + (i + 1) * d)) := by
  intro fuel
  induction fuel with
  | zero =>
    intro cur h
    have h1 : bound < cur := by omega
    have h2 : (bound - cur) / d = 0 := by
      rw [Nat.sub_eq_zero_of_le (Nat.le_of_lt h1), Nat.zero_div]
    rw [h2]
    rfl
  | succ fuel ih =>
    intro cur h
    by_cases hcb : cur ≤ bound
    · simp only [genLoop, if_pos hcb, hstep]
      by_cases hnd : cur + d > bound
      · rw [if_pos hnd]
        have h2 : (bound - cur) / d = 0 := Nat.div_eq_of_lt (by omega)
        rw [h2]
        rfl
      · rw [if_neg hnd]
        rw [ih (cur + d) (by omega)]
        have hge : d ≤ bound - cur := by omega
        have hsub : bound - cur - d = bound - (cur + d) := by omega
        rw [Nat.div_eq_sub_div hd hge, hsub, List.range_succ_eq_map, List.map_cons,
          List.map_map]
        rw [show cur + (0 + 1) * d = cur + d by ring]
        congr 1
        apply List.map_congr_left
        intro i _
        simp only [Function.comp_apply]
        congr 1
        simp only [Nat.succ_eq_add_one]
        ring
    · simp only [genLoop, if_neg hcb]
      have h2 : (bound - cur) / d = 0 := by
        rw [Nat.sub_eq_zero_of_le (by omega), Nat.zero_div]
      rw [h2]
      rfl

/-- C10.  Recurrence expansion: a recurring template (with
`parent_event` unset) whose per-iteration step is the positive `d`
expands to exactly the instances at `start + (i+1)*d` for
`i < (bound - start) / d` — so every emitted start lies within the
bound — and each instance copies the template's title, description and
location, keeps the template duration, points `parent_event` at the
template and is itself non-recurring.  The step is `+1` day for daily,
`+7` for weekly, `+30` for monthly, `+365` for yearly and
`interval × {1, 7, 30, 365}` days for custom units
days/weeks/months/years; an unknown custom unit (or a missing custom
spec) halts the expansion silently with no instances, and a
non-recurring event or a generated instance expands to the empty
list. -/
theorem recurrence_expansion (t : EventRow) (untilDate : Option Nat) :
    (∀ d, t.is_recurring = true → t.parent_event = none → stepOf t = some d → 0 < d →
      generateRecurringInstances t untilDate =
        (List.range ((boundOf t untilDate - t.start_date) / d)).map
          (fun i => mkInstance t (t.start_date + (i + 1) * d)) ∧
      ∀ e ∈ generateRecurringInstances t untilDate,
        e.start_date ≤ boundOf t untilDate ∧ e.title = t.title ∧
          e.description = t.description ∧ e.location = t.location ∧
          e.end_date = e.start_date + (t.end_date - t.start_date) ∧
          e.parent_event = some t.id ∧ e.is_recurring = false) ∧
    (t.is_recurring = false ∨ t.parent_event ≠ none →
      generateRecurringInstances t untilDate = []) ∧
    (t.is_recurring = true → t.parent_event = none →
      t.recurrence_pattern = some RecPattern.custom → stepOf t = none →
      generateRecurringInstances t untilDate = []) ∧
    (t.recurrence_pattern = some RecPattern.daily → stepOf t = some minutesPerDay) ∧
    (t.recurrence_pattern = some RecPattern.weekly → stepOf t = some (7 * minutesPerDay)) ∧
    (t.recurrence_pattern = some RecPattern.monthly → stepOf t = some (30 * minutesPerDay)) ∧
    (t.recurrence_pattern = some RecPattern.yearly → stepOf t = some (365 * minutesPerDay)) ∧
    (∀ c, t.recurrence_pattern = some RecPattern.custom → t.custom_recurrence = some c →
      c.unit.getD "days" = "months" →
      stepOf t = some (30 * c.interval.getD 1 * minutesPerDay)) ∧
    (∀ c, t.recurrence_pattern = some RecPattern.custom → t.custom_recurrence = some c →
      c.unit.getD "days" = "years" →
      stepOf t = some (365 * c.interval.getD 1 * minutesPerDay)) := by
  refine ⟨?_, ?_, ?_, ?_, ?_, ?_, ?_, ?_, ?_⟩
  · intro d hrec hpar hstep hd
    have hgen : generateRecurringInstances t untilDate =
        genLoop t (boundOf t untilDate) t.start_date (boundOf t untilDate + 1) := by
      unfold generateRecurringInstances
      rw [if_neg]
      push_neg
      exact ⟨by rw [hrec]; simp, by rw [hpar]⟩
    have hclosed := genLoop_closed t (boundOf t untilDate) d hstep hd
      (boundOf t untilDate + 1) t.start_date (Nat.sub_le _ _)
    refine ⟨by rw [hgen, hclosed], ?_⟩
    intro e he
    rw [hgen, hclosed] at he
    obtain ⟨i, hi, rfl⟩ := List.mem_map.mp he
    rw [List.mem_range] at hi
    have hstartle : t.start_date + (i + 1) * d ≤ boundOf t untilDate := by
      have h1 : i + 1 ≤ (boundOf t untilDate - t.start_date) / d := hi
      have h2 : (i + 1) * d ≤ ((boundOf t untilDate - t.start_date) / d) * d :=
        Nat.mul_le_mul_right d h1
      have h3 : ((boundOf t untilDate - t.start_date) / d) * d ≤
          boundOf t untilDate - t.start_date := Nat.div_mul_le_self _ _
      have h4 : 0 < (boundOf t untilDate - t.start_date) / d := by omega
      have h5 : t.start_date ≤ boundOf t untilDate := by
        by_contra hcon
        have : boundOf t untilDate - t.start_date = 0 := by omega
        rw [this] at h4
        simp at h4
      omega
    exact ⟨hstartle, rfl, rfl, rfl, rfl, rfl, rfl⟩
  · intro h
    unfold generateRecurringInstances
    rw [if_pos]
    rcases h with h | h
    · exact Or.inl h
    · exact Or.inr h
  · intro hrec hpar hpat hstep
    unfold generateRecurringInstances
    rw [if_neg (by push_neg; exact ⟨by rw [hrec]; simp, by rw [hpar]⟩)]
    cases hfuel : boundOf t untilDate + 1 with
    | zero => rfl
    | succ m =>
      simp only [genLoop, hstep]
      split
      · rfl
      · rfl
  · intro h
    simp [stepOf, h, minutesPerDay]
  · intro h
    simp [stepOf, h]
  · intro h
    simp [stepOf, h]
  · intro h
    simp [stepOf, h]
  · intro c hpat hcus hunit
    simp [stepOf, hpat, hcus, hunit]
  · intro c hpat hcus hunit
    simp [stepOf, hpat, hcus, hunit]

/-- Witness for C10: the daily template at day 0 with bound day 2
yields exactly the instances at day 1 and day 2 (1440 and 2880
minutes), none after. -/
theorem recurrence_expansion_witness :
    templDaily.is_recurring = true ∧ templDaily.parent_event = none ∧
    stepOf templDaily = some minutesPerDay ∧ 0 < minutesPerDay ∧
    (generateRecurringInstances templDaily (some (2 * minutesPerDay)) =
        (List.range ((boundOf templDaily (some (2 * minutesPerDay)) - templDaily.start_date) /
            minutesPerDay)).map
          (fun i => mkInstance templDaily (templDaily.start_date + (i + 1) * minutesPerDay)) ∧
      ∀ e ∈ generateRecurringInstances templDaily (some (2 * minutesPerDay)),
        e.start_date ≤ boundOf templDaily (some (2 * minutesPerDay)) ∧
          e.title = templDaily.title ∧ e.description = templDaily.description ∧
          e.location = templDaily.location ∧
          e.end_date = e.start_date + (templDaily.end_date - templDaily.start_date) ∧
          e.parent_event = some templDaily.id ∧ e.is_recurring = false) ∧
    (generateRecurringInstances templDaily (some (2 * minutesPerDay))).map
        (fun e => e.start_date) = [1440, 2880] :=
  ⟨rfl, rfl, rfl, by decide,
    (recurrence_expansion templDaily (some (2 * minutesPerDay))).1 minutesPerDay
      rfl rfl rfl (by decide),
    by decide⟩

/-! ## Helper lemmas: permissions -/

/-- Any member of an upserted permission list is the saved row or an
old row with a different pk. -/
theorem mem_upsertPerm (ps : List PermRow) (p q : PermRow) (h : q ∈ upsertPerm ps p) :
    q = p ∨ (q ∈ ps ∧ q.id ≠ p.id) := by
  unfold upsertPerm at h
  by_cases hex : ps.any (fun r => r.id == p.id) = true
  · rw [if_pos hex] at h
    obtain ⟨r, hr, hq⟩ := List.mem_map.mp h
    by_cases hid : r.id = p.id
    · rw [if_pos hid] at hq
      exact Or.inl hq.symm
    · rw [if_neg hid] at hq
      rcases hq with rfl
      exact Or.inr ⟨hr, hid⟩
  · rw [if_neg hex] at h
    rcases List.mem_append.mp h with h | h
    · refine Or.inr ⟨h, ?_⟩
      have hanyf : (ps.any fun r => r.id == p.id) = false := Bool.eq_false_iff.mpr hex
      have hall := List.any_eq_false.mp hanyf q h
      simpa using hall
    · rcases List.mem_singleton.mp h with rfl
      exact Or.inl rfl

/-- The failing-any fact used twice below: when the owner-duplication
guard let a save through for an owner row, no OTHER row of the same
event holds owner. -/
theorem no_other_owner_of_guard (db : Db) (p : PermRow)
    (hcond : ¬(p.role = Role.owner ∧
      db.perms.any (fun q => q.event == p.event && decide (q.role = Role.owner)
        && q.id != p.id) = true))
    (hpo : p.role = Role.owner) :
    ∀ r ∈ db.perms, r.event = p.event → r.role = Role.owner → r.id = p.id := by
  intro r hr hre hro
  have hanyf : db.perms.any (fun x => x.event == p.event && decide (x.role = Role.owner)
      && x.id != p.id) = false := by
    by_cases ha : db.perms.any (fun x => x.event == p.event && decide (x.role = Role.owner)
        && x.id != p.id) = true
    · exact absurd ⟨hpo, ha⟩ hcond
    · exact Bool.eq_false_iff.mpr ha
  have hfr : (r.event == p.event && decide (r.role = Role.owner) && r.id != p.id) = false :=
    Bool.eq_false_iff.mpr (List.any_eq_false.mp hanyf r hr)
  simp only [Bool.and_eq_false_iff, beq_eq_false_iff_ne, decide_eq_false_iff_not,
    bne_eq_false_iff_eq] at hfr
  rcases hfr with (h | h) | h
  · exact absurd hre h
  · exact absurd hro h
  · exact h

/-- C3 (amended).  At-most-one-owner is enforced at write time:
saving a permission with role `owner` while another row of the same
event (a different pk) already holds `owner` fails with the
duplicate-owner `ValueError` and changes nothing; every successful
permission save preserves owner-uniqueness of every event.  Revocation
however performs NO role check: under the endpoint's `edit` gate, the
delete of a permission row succeeds even when its role is `owner`,
removing it — an event can thus be left without any owner permission
(there is no `CannotRemoveOwner` anywhere in the code). -/
theorem owner_uniqueness_amended :
    (∀ db p, p.role = Role.owner →
      db.perms.any (fun q => q.event == p.event && decide (q.role = Role.owner)
        && q.id != p.id) = true →
      savePermission db p = Except.error SvcError.duplicateOwner) ∧
    (∀ db p db', savePermission db p = Except.ok db' →
      ∀ e, OwnerUnique db e → OwnerUnique db' e) ∧
    (∀ db eventId permissionId actor ev perm,
      db.events.find? (fun e => e.id == eventId) = some ev →
      db.perms.find? (fun q => q.id == permissionId && q.event == rootIdOf ev) = some perm →
      perm.role = Role.owner →
      hasEventPermission db actor (rootIdOf ev) PermType.view = true →
      hasEventPermission db actor (rootIdOf ev) PermType.edit = true →
      ∃ db', deletePermissionView db eventId permissionId actor = Except.ok db' ∧
        ∀ q ∈ db'.perms, q.id ≠ permissionId) := by
  refine ⟨?_, ?_, ?_⟩
  · intro db p hrole hany
    unfold savePermission
    rw [if_pos ⟨hrole, hany⟩]
  · intro db p db' hok e hu
    unfold savePermission at hok
    by_cases hcond : p.role = Role.owner ∧
        db.perms.any (fun q => q.event == p.event && decide (q.role = Role.owner)
          && q.id != p.id) = true
    · rw [if_pos hcond] at hok
      cases hok
    · rw [if_neg hcond] at hok
      have hdb : db' = { db with perms := upsertPerm db.perms p } := by
        cases hok
        rfl
      subst hdb
      intro q hq r hr hqe hre hqo hro
      rcases mem_upsertPerm db.perms p q hq with hq1 | ⟨hq1, hq2⟩ <;>
        rcases mem_upsertPerm db.perms p r hr with hr1 | ⟨hr1, hr2⟩
      · rw [hq1, hr1]
      · exfalso
        have hpo : p.role = Role.owner := by rw [← hq1]; exact hqo
        have hpe : p.event = e := by rw [← hq1]; exact hqe
        exact hr2 (no_other_owner_of_guard db p hcond hpo r hr1 (hre.trans hpe.symm) hro)
      · exfalso
        have hpo : p.role = Role.owner := by rw [← hr1]; exact hro
        have hpe : p.event = e := by rw [← hr1]; exact hre
        exact hq2 (no_other_owner_of_guard db p hcond hpo q hq1 (hqe.trans hpe.symm) hqo)
      · exact hu q hq1 r hr1 hqe hre hqo hro
  · intro db eventId permissionId actor ev perm hfe hfp hrole hview hedit
    simp only [deletePermissionView, hfe, hview, hfp, hedit, reduceIte, Bool.true_eq_false]
    refine ⟨_, rfl, ?_⟩
    intro q hq
    have := List.mem_filter.mp hq
    simpa using this.2

/-- Witness for C3: inserting a second owner for the fixture event
fails; saving a fresh viewer row preserves owner-uniqueness; the
editor successfully deletes the owner permission row (id 10). -/
theorem owner_uniqueness_amended_witness :
    savePermission dbFix { id := 13, event := 1, user := 3, role := Role.owner, granted_by := none } = Except.error SvcError.duplicateOwner ∧
    OwnerUnique { dbFix with perms := upsertPerm dbFix.perms { id := 13, event := 1, user := 3, role := Role.viewer, granted_by := none } } 1 ∧
    (∃ db', deletePermissionView dbFix 1 10 userB = Except.ok db' ∧
      ∀ q ∈ db'.perms, q.id ≠ 10) :=
  ⟨owner_uniqueness_amended.1 dbFix
      { id := 13, event := 1, user := 3, role := Role.owner, granted_by := none } rfl (by decide),
    owner_uniqueness_amended.2.1 dbFix
      { id := 13, event := 1, user := 3, role := Role.viewer, granted_by := none } _ rfl 1
      (by unfold OwnerUnique; decide),
    owner_uniqueness_amended.2.2 dbFix 1 10 userB eventOne permOwnerA rfl rfl rfl rfl rfl⟩

/-- C4 (amended).  Only the service entry `update_event_permissions`
demands the owner role: an actor without an `owner` permission row on
the event (superuser or not) is rejected with `ValidationError` and,
the service being atomic, nothing changes.  The per-permission
endpoints (add, update, delete) gate on `edit` instead: an actor
failing the `edit` check — no permission row and not a superuser, or a
viewer — is rejected with `PermissionDenied` before any write, but an
editor passes (see the counterexample theorem for an editor
successfully adding a permission). -/
theorem permission_gating_amended :
    (∀ db eventId pdata actor ev,
      db.events.find? (fun e => e.id == eventId) = some ev →
      db.perms.any (fun q => q.event == eventId && q.user == actor.id
        && decide (q.role = Role.owner)) = false →
      updateEventPermissions db eventId pdata actor = Except.error SvcError.validation) ∧
    (∀ db eventId actor targetUser role ev,
      db.events.find? (fun e => e.id == eventId) = some ev →
      hasEventPermission db actor (rootIdOf ev) PermType.edit = false →
      addPermissionView db eventId actor targetUser role =
        Except.error SvcError.permissionDenied) ∧
    (∀ db eventId permissionId actor newRole ev perm,
      db.events.find? (fun e => e.id == eventId) = some ev →
      db.perms.find? (fun q => q.id == permissionId && q.event == rootIdOf ev) = some perm →
      hasEventPermission db actor (rootIdOf ev) PermType.edit = false →
      updatePermissionView db eventId permissionId actor newRole =
        Except.error SvcError.permissionDenied) ∧
    (∀ db eventId permissionId actor ev perm,
      db.events.find? (fun e => e.id == eventId) = some ev →
      db.perms.find? (fun q => q.id == permissionId && q.event == rootIdOf ev) = some perm →
      hasEventPermission db actor (rootIdOf ev) PermType.edit = false →
      deletePermissionView db eventId permissionId actor =
        Except.error SvcError.permissionDenied) := by
  refine ⟨?_, ?_, ?_, ?_⟩
  · intro db eventId pdata actor ev hfe hany
    simp only [updateEventPermissions, hfe, hany, reduceIte]
  · intro db eventId actor targetUser role ev hfe hedit
    cases hview : hasEventPermission db actor (rootIdOf ev) PermType.view with
    | false => simp only [addPermissionView, hfe, hview, reduceIte]
    | true => simp only [addPermissionView, hfe, hview, hedit, reduceIte, Bool.true_eq_false]
  · intro db eventId permissionId actor newRole ev perm hfe hfp hedit
    cases hview : hasEventPermission db actor (rootIdOf ev) PermType.view with
    | false => simp only [updatePermissionView, hfe, hview, reduceIte]
    | true =>
      simp only [updatePermissionView, hfe, hview, hfp, hedit, reduceIte, Bool.true_eq_false]
  · intro db eventId permissionId actor ev perm hfe hfp hedit
    cases hview : hasEventPermission db actor (rootIdOf ev) PermType.view with
    | false => simp only [deletePermissionView, hfe, hview, reduceIte]
    | true =>
      simp only [deletePermissionView, hfe, hview, hfp, hedit, reduceIte, Bool.true_eq_false]

/-- Witness for C4 at the fixture: user 4 (a viewer — not an owner, not
a superuser) is rejected by all four permission-modifying paths. -/
theorem permission_gating_amended_witness :
    updateEventPermissions dbFix 1 [(3, Role.viewer)] userV = Except.error SvcError.validation ∧
    addPermissionView dbFix 1 userV 3 Role.viewer = Except.error SvcError.permissionDenied ∧
    updatePermissionView dbFix 1 11 userV Role.viewer = Except.error SvcError.permissionDenied ∧
    deletePermissionView dbFix 1 11 userV = Except.error SvcError.permissionDenied :=
  ⟨permission_gating_amended.1 dbFix 1 [(3, Role.viewer)] userV eventOne rfl rfl,
    permission_gating_amended.2.1 dbFix 1 userV 3 Role.viewer eventOne rfl rfl,
    permission_gating_amended.2.2.1 dbFix 1 11 userV Role.viewer eventOne permEditorB rfl rfl rfl,
    permission_gating_amended.2.2.2 dbFix 1 11 userV eventOne permEditorB rfl rfl rfl⟩

/-! ## Helper lemmas: version chain -/

/-- A successful permission save does not touch the event table. -/
theorem savePermission_events (db : Db) (p : PermRow) (db' : Db)
    (h : savePermission db p = Except.ok db') : db'.events = db.events := by
  unfold savePermission at h
  by_cases hc : p.role = Role.owner ∧
      db.perms.any (fun q => q.event == p.event && decide (q.role = Role.owner)
        && q.id != p.id) = true
  · rw [if_pos hc] at h
    cases h
  · rw [if_neg hc] at h
    cases h
    rfl

/-- The permission-copy fold does not touch the event table. -/
theorem copyPermsList_events :
    ∀ (l : List PermRow) (newId : Nat) (db db' : Db),
      copyPermsList newId db l = Except.ok db' → db'.events = db.events := by
  intro l
  induction l with
  | nil =>
    intro newId db db' h
    cases h
    rfl
  | cons q rest ih =>
    intro newId db db' h
    simp only [copyPermsList] at h
    cases hs : savePermission db { id := freshPermId db, event := newId, user := q.user, role := q.role, granted_by := q.granted_by } with
    | error e =>
      rw [hs] at h
      cases h
    | ok d1 =>
      rw [hs] at h
      rw [ih newId d1 db' h, savePermission_events db _ d1 hs]

/-- `copyRootPerms` does not touch the event table. -/
theorem copyRootPerms_events (db : Db) (rootId newId : Nat) (db' : Db)
    (h : copyRootPerms db rootId newId = Except.ok db') : db'.events = db.events := by
  unfold copyRootPerms at h
  exact copyPermsList_events _ newId db db' h

/-- The accumulator-generalized membership fact for the
`order_by("-version").first()` fold. -/
theorem maxByVersion_foldl_mem :
    ∀ (l : List EventRow) (acc : Option EventRow) (m : EventRow),
      l.foldl (fun acc e =>
        match acc with
        | none => some e
        | some x => if e.version > x.version then some e else some x) acc = some m →
      m ∈ l ∨ acc = some m := by
  intro l
  induction l with
  | nil =>
    intro acc m h
    exact Or.inr h
  | cons e rest ih =>
    intro acc m h
    simp only [List.foldl_cons] at h
    rcases ih _ m h with hm | hm
    · exact Or.inl (List.mem_cons_of_mem _ hm)
    · cases acc with
      | none =>
        have h2 : some e = some m := hm
        rcases Option.some.inj h2 with rfl
        exact Or.inl (List.mem_cons_self _ _)
      | some x =>
        have h2 : (if e.version > x.version then some e else some x) = some m := hm
        by_cases hv : e.version > x.version
        · rw [if_pos hv] at h2
          rcases Option.some.inj h2 with rfl
          exact Or.inl (List.mem_cons_self _ _)
        · rw [if_neg hv] at h2
          exact Or.inr h2

/-- The row returned by the max-version query is a member of the
queried list. -/
theorem maxByVersion_mem (l : List EventRow) (m : EventRow) (h : maxByVersion l = some m) :
    m ∈ l := by
  unfold maxByVersion at h
  rcases maxByVersion_foldl_mem l none m h with h1 | h1
  · exact h1
  · cases h1

/-- C9 (amended).  On a lineage whose chain query returns a latest row
`lv` (which requires at least two versions; a single-version lineage
faults, see the counterexample), rolling back to a version that
resolves (k = 1 resolving to the root row) returns a new row that is
marked latest, carries `version = lv.version + 1` and `updated_by =
actor`, is stored, and whose content fields (title, description,
dates, location, recurrence fields) all equal the target version's
values; resolving an absent version number fails with
`VersionNotFound` before any write. -/
theorem rollback_restores_content (db : Db) (selfRow lv : EventRow) (userId : Nat)
    (h1 : maxByVersion (db.events.filter
      (fun e => e.parent_version == some (rootIdOf selfRow))) = some lv)
    (h2 : lv.is_latest = true)
    (h3 : maxByVersion (lineageOf db (rootIdOf selfRow)) = some lv) :
    (∀ k tgt, targetResolve db selfRow k = Except.ok tgt →
      (∃ dbp, copyRootPerms (preCopyState db lv (rootIdOf selfRow) (newIdOf db lv) userId)
          (rootIdOf selfRow) (newIdOf db lv) = Except.ok dbp) →
      ∃ db' r, rollbackToVersion db selfRow k userId = Except.ok (db', r) ∧
        r ∈ db'.events ∧ r.is_latest = true ∧ r.version = lv.version + 1 ∧
        r.updated_by = some userId ∧ r.title = tgt.title ∧ r.description = tgt.description ∧
        r.start_date = tgt.start_date ∧ r.end_date = tgt.end_date ∧
        r.location = tgt.location ∧ r.is_recurring = tgt.is_recurring ∧
        r.recurrence_pattern = tgt.recurrence_pattern ∧
        r.recurrence_end_date = tgt.recurrence_end_date ∧
        r.custom_recurrence = tgt.custom_recurrence) ∧
    (∀ k, targetResolve db selfRow k = Except.error SvcError.versionNotFound →
      rollbackToVersion db selfRow k userId = Except.error SvcError.versionNotFound) := by
  have hlvmem := maxByVersion_mem _ lv h1
  have hlvp : lv.parent_version = some (rootIdOf selfRow) := by
    have := (List.mem_filter.mp hlvmem).2
    simpa using this
  have hrootl : rootIdOf lv = rootIdOf selfRow := by
    unfold rootIdOf
    rw [hlvp]
    rfl
  constructor
  · intro k tgt htr hcopy
    obtain ⟨dbp, hcopy⟩ := hcopy
    simp only [rollbackToVersion, h1, h2, htr, Bool.true_eq_false, reduceIte]
    simp only [createVersion, hrootl, h3, hcopy]
    refine ⟨_, _, rfl, ?_, rfl, rfl, rfl, rfl, rfl, rfl, rfl, rfl, rfl, rfl, rfl, rfl⟩
    have hev : dbp.events =
        (setIsLatest db lv.id false).events ++
          [freshVersionRow lv (rootIdOf selfRow) (newIdOf db lv) userId] :=
      copyRootPerms_events _ _ _ _ hcopy
    unfold replaceEvent
    simp only []
    refine List.mem_map.mpr ⟨freshVersionRow lv (rootIdOf selfRow) (newIdOf db lv) userId,
      ?_, ?_⟩
    · rw [hev]
      exact List.mem_append_right _ (List.mem_singleton.mpr rfl)
    · rw [if_pos rfl]
  · intro k htr
    simp only [rollbackToVersion, h1, h2, htr, Bool.true_eq_false, reduceIte]

/-- Witness for C9 on the concrete two-version lineage: rolling back to
version 1 restores the root's content on a new latest version 3 row;
rolling back to the absent version 5 fails with `VersionNotFound`. -/
theorem rollback_restores_content_witness :
    (∃ db' r, rollbackToVersion dbTwo childTwo 1 1 = Except.ok (db', r) ∧
      r ∈ db'.events ∧ r.is_latest = true ∧ r.version = childTwo.version + 1 ∧
      r.updated_by = some 1 ∧ r.title = rootTwo.title ∧ r.description = rootTwo.description ∧
      r.start_date = rootTwo.start_date ∧ r.end_date = rootTwo.end_date ∧
      r.location = rootTwo.location ∧ r.is_recurring = rootTwo.is_recurring ∧
      r.recurrence_pattern = rootTwo.recurrence_pattern ∧
      r.recurrence_end_date = rootTwo.recurrence_end_date ∧
      r.custom_recurrence = rootTwo.custom_recurrence) ∧
    rollbackToVersion dbTwo childTwo 5 1 = Except.error SvcError.versionNotFound :=
  ⟨(rollback_restores_content dbTwo childTwo childTwo 1 rfl rfl rfl).1 1 rootTwo rfl ⟨_, rfl⟩,
    (rollback_restores_content dbTwo childTwo childTwo 1 rfl rfl rfl).2 5 rfl⟩
